import Mathlib

/-!
Verification of the investment-calculator core (src/app.py) against its
natural-language specification.

The two numeric engines are embedded shallowly over exact rationals (ℚ):
Python floats become ℚ, so every arithmetic identity claimed "within
floating-point tolerance" is settled exactly.  Python `int` parameters that
may be negative are embedded as ℤ, and Python `range` loops as `pyRange`.
The Monte Carlo engine's random draws are embedded as an explicit stream of
monthly returns passed to the engine, indexed by (simulation, year, month):
the code draws one lognormal factor per iteration of those loops.
-/

/-- Python `range(a, b)` over integers, as the list `[a, a+1, ..., b-1]`
(empty when `b ≤ a`). -/
def pyRange (a b : ℤ) : List ℤ :=
  (List.range (b - a).toNat).map (fun (i : ℕ) => a + (i : ℤ))

/-- One row of the deterministic projector's ledger (class `YearlyData`). -/
structure YearlyData where
  year : ℤ
  deposit : ℚ
  interest : ℚ
  ending_balance : ℚ
  phase : ℤ
  cumulative_starting : ℚ
  cumulative_contributions : ℚ
  cumulative_interest : ℚ
  fees_paid : ℚ
  balance_without_fees : ℚ
  deriving DecidableEq, Repr

/-- The deterministic projector's aggregate output (class `InvestmentResult`). -/
structure InvestmentResult where
  end_balance : ℚ
  starting_amount : ℚ
  total_contributions : ℚ
  total_interest : ℚ
  total_fees : ℚ
  balance_without_fees : ℚ
  phase1_end_balance : ℚ
  phase1_years : ℤ
  phase2_years : ℤ
  schedule : List YearlyData
  deriving DecidableEq, Repr

/-- The parameters of `calculate_investment`, in source order. -/
structure InvParams where
  starting_amount : ℚ
  contribution_years : ℤ
  growth_years : ℤ
  return_rate : ℚ
  contribution : ℚ
  contribution_frequency : String
  contribution_timing : String
  fund_fee : ℚ
  platform_fee : ℚ
  delay_years : ℤ
  deriving DecidableEq, Repr

/-- The mutable locals of the monthly loop of `calculate_investment`
(lines 82-148 of src/app.py) that the loop body reads or writes. -/
structure MState where
  balance : ℚ
  balance_no_fees : ℚ
  year_interest : ℚ
  year_interest_no_fees : ℚ
  year_deposits : ℚ
  year_fees : ℚ
  cumulative_contributions : ℚ
  cumulative_interest : ℚ
  total_fees : ℚ
  deriving DecidableEq, Repr

/-- The four assignments performed when a contribution is added
(src/app.py lines 112-115, 117-120, 140-143, 145-148). -/
def addContribution (p : InvParams) (s : MState) : MState :=
  { s with
    balance := s.balance + p.contribution
    balance_no_fees := s.balance_no_fees + p.contribution
    year_deposits := s.year_deposits + p.contribution
    cumulative_contributions := s.cumulative_contributions + p.contribution }

/-- One iteration of the monthly loop of `calculate_investment`
(src/app.py lines 108-148): optional beginning-of-month contribution,
monthly interest on both balances, monthly fee on the fee-inclusive
balance, optional end-of-month contribution. -/
def monthStep (p : InvParams) (inPhase : Bool) (month : ℕ) (s : MState) : MState :=
  let r := p.return_rate / 100
  let total_fee_rate := (p.fund_fee + p.platform_fee) / 100
  let s1 :=
    if inPhase && (p.contribution_timing == "beginning") then
      if p.contribution_frequency == "monthly" then addContribution p s
      else if (p.contribution_frequency == "yearly") && (month == 0) then
        addContribution p s
      else s
    else s
  let monthly_interest := s1.balance * (r / 12)
  let monthly_interest_no_fees := s1.balance_no_fees * (r / 12)
  let s2 :=
    { s1 with
      balance := s1.balance + monthly_interest
      balance_no_fees := s1.balance_no_fees + monthly_interest_no_fees
      year_interest := s1.year_interest + monthly_interest
      year_interest_no_fees := s1.year_interest_no_fees + monthly_interest_no_fees
      cumulative_interest := s1.cumulative_interest + monthly_interest }
  let monthly_fee := s2.balance * (total_fee_rate / 12)
  let s3 :=
    { s2 with
      balance := s2.balance - monthly_fee
      year_fees := s2.year_fees + monthly_fee
      total_fees := s2.total_fees + monthly_fee }
  if inPhase && (p.contribution_timing == "end") then
    if p.contribution_frequency == "monthly" then addContribution p s3
    else if (p.contribution_frequency == "yearly") && (month == 11) then
      addContribution p s3
    else s3
  else s3

/-- The state carried across iterations of the yearly loop of
`calculate_investment` (src/app.py lines 82-170). -/
structure YState where
  balance : ℚ
  balance_no_fees : ℚ
  total_contributions : ℚ
  total_interest : ℚ
  total_fees : ℚ
  phase1_end_balance : ℚ
  cumulative_contributions : ℚ
  cumulative_interest : ℚ
  schedule : List YearlyData
  deriving DecidableEq, Repr

/-- One iteration of the yearly loop of `calculate_investment`
(src/app.py lines 96-170), parameterized by the monthly body so that the
code's month step and the spec's beginning-of-month month step can share
the identical yearly scaffolding. -/
def runYearWith (p : InvParams) (mstep : Bool → ℕ → MState → MState)
    (y : YState) (year : ℤ) : YState :=
  let inPhase := decide (year ≤ p.contribution_years)
  let phase : ℤ := if inPhase then 1 else 2
  let m0 : MState :=
    { balance := y.balance
      balance_no_fees := y.balance_no_fees
      year_interest := 0
      year_interest_no_fees := 0
      year_deposits := 0
      year_fees := 0
      cumulative_contributions := y.cumulative_contributions
      cumulative_interest := y.cumulative_interest
      total_fees := y.total_fees }
  let m := (List.range 12).foldl (fun s month => mstep inPhase month s) m0
  let row : YearlyData :=
    { year := year + p.delay_years
      deposit := m.year_deposits
      interest := m.year_interest
      ending_balance := m.balance
      phase := phase
      cumulative_starting := p.starting_amount
      cumulative_contributions := m.cumulative_contributions
      cumulative_interest := m.cumulative_interest
      fees_paid := m.year_fees
      balance_without_fees := m.balance_no_fees }
  { balance := m.balance
    balance_no_fees := m.balance_no_fees
    total_contributions := y.total_contributions + m.year_deposits
    total_interest := y.total_interest + m.year_interest
    total_fees := m.total_fees
    phase1_end_balance :=
      if year = p.contribution_years then m.balance else y.phase1_end_balance
    cumulative_contributions := m.cumulative_contributions
    cumulative_interest := m.cumulative_interest
    schedule := y.schedule ++ [row] }

/-- The delay rows emitted by src/app.py lines 66-80: one all-zero ledger
row per delay year. -/
def delayRows (p : InvParams) : List YearlyData :=
  (pyRange 1 (p.delay_years + 1)).map (fun year =>
    { year := year
      deposit := 0
      interest := 0
      ending_balance := 0
      phase := 0
      cumulative_starting := 0
      cumulative_contributions := 0
      cumulative_interest := 0
      fees_paid := 0
      balance_without_fees := 0 })

/-- The loop state of `calculate_investment` just before the main yearly
loop (src/app.py lines 82-94). -/
def initYState (p : InvParams) : YState :=
  { balance := p.starting_amount
    balance_no_fees := p.starting_amount
    total_contributions := 0
    total_interest := 0
    total_fees := 0
    phase1_end_balance := 0
    cumulative_contributions := 0
    cumulative_interest := 0
    schedule := delayRows p }

/-- `calculate_investment` with the monthly body abstracted (see
`runYearWith`).  `calcWith p (monthStep p)` is the source function. -/
def calcWith (p : InvParams) (mstep : Bool → ℕ → MState → MState) :
    InvestmentResult :=
  let total_years := p.contribution_years + p.growth_years
  let fin := (pyRange 1 (total_years + 1)).foldl (runYearWith p mstep) (initYState p)
  let phase1_end_balance :=
    if p.contribution_years = 0 then p.starting_amount else fin.phase1_end_balance
  { end_balance := fin.balance
    starting_amount := p.starting_amount
    total_contributions := fin.total_contributions
    total_interest := fin.total_interest
    total_fees := fin.total_fees
    balance_without_fees := fin.balance_no_fees
    phase1_end_balance := phase1_end_balance
    phase1_years := p.contribution_years
    phase2_years := p.growth_years
    schedule := fin.schedule }

/-- `calculate_investment` of src/app.py (lines 39-187), over ℚ. -/
def calculate_investment (p : InvParams) : InvestmentResult :=
  calcWith p (monthStep p)

/-- The parameters of the `/simulate` engine of src/app.py (lines 268-287),
after the route's /100 conversions: `expected_return`, `volatility`,
`fund_fee` and `platform_fee` are decimals here, exactly as in the loop. -/
structure SimParams where
  starting_amount : ℚ
  contribution_years : ℤ
  growth_years : ℤ
  expected_return : ℚ
  volatility : ℚ
  contribution : ℚ
  contribution_frequency : String
  contribution_timing : String
  fund_fee : ℚ
  platform_fee : ℚ
  delay_years : ℤ
  num_simulations : ℕ
  deriving DecidableEq, Repr

/-- src/app.py lines 285-287: the contribution is used monthly, a yearly
contribution being spread as `contribution / 12` every month. -/
def monthlyContribution (p : SimParams) : ℚ :=
  if p.contribution_frequency == "monthly" then p.contribution
  else p.contribution / 12

/-- One iteration of the Monte Carlo monthly loop (src/app.py lines
310-336) acting on one path's balance; `ret` is that iteration's
`monthly_return` (the lognormal draw minus 1). -/
def simMonthStep (p : SimParams) (inPhase : Bool) (ret : ℚ) (b : ℚ) : ℚ :=
  let b1 :=
    if inPhase && (p.contribution_timing == "beginning") then
      b + monthlyContribution p
    else b
  let b2 := b1 * (1 + ret)
  let b3 := b2 * (1 - (p.fund_fee + p.platform_fee) / 12)
  if inPhase && (p.contribution_timing == "end") then
    b3 + monthlyContribution p
  else b3

/-- Total modeled years of the Monte Carlo engine (src/app.py line 282). -/
def simTotalYears (p : SimParams) : ℤ :=
  p.delay_years + p.contribution_years + p.growth_years

/-- One iteration of the Monte Carlo yearly loop for one path
(src/app.py lines 297-338): the state is (path so far, raw balance).
The monthly body is abstracted so the code's step and the spec's
beginning-of-month step share the identical scaffolding. -/
def simYearWith (p : SimParams) (mstep : Bool → ℚ → ℚ → ℚ)
    (rets : ℤ → ℕ → ℚ) (st : List ℚ × ℚ) (year : ℤ) : List ℚ × ℚ :=
  if year ≤ p.delay_years then (st.1 ++ [0], st.2)
  else
    let b0 := if year = p.delay_years + 1 then p.starting_amount else st.2
    let inPhase := decide (year ≤ p.delay_years + p.contribution_years)
    let b := (List.range 12).foldl
      (fun b month => mstep inPhase (rets year month) b) b0
    (st.1 ++ [max 0 b], b)

/-- One full path of the Monte Carlo engine (src/app.py lines 293-341):
returns (the year-end path with year-end balances floored at 0, the raw
final balance appended to `final_balances`). -/
def simRunWith (p : SimParams) (mstep : Bool → ℚ → ℚ → ℚ)
    (rets : ℤ → ℕ → ℚ) : List ℚ × ℚ :=
  (pyRange 1 (simTotalYears p + 1)).foldl (simYearWith p mstep rets) ([], 0)

/-- One path of the Monte Carlo engine with the code's month body. -/
def simRun (p : SimParams) (rets : ℤ → ℕ → ℚ) : List ℚ × ℚ :=
  simRunWith p (simMonthStep p) rets

/-- Round half to even, the rounding of Python's builtin `round`. -/
def roundHalfEven (q : ℚ) : ℤ :=
  if Int.fract q < 1 / 2 then ⌊q⌋
  else if 1 / 2 < Int.fract q then ⌊q⌋ + 1
  else if 2 ∣ ⌊q⌋ then ⌊q⌋ else ⌊q⌋ + 1

/-- Python `round(q, d)`. -/
def pyRound (d : ℕ) (q : ℚ) : ℚ :=
  (roundHalfEven (q * 10 ^ d) : ℚ) / 10 ^ d

/-- `np.percentile(xs, q)` with the default linear interpolation between
order statistics: sort ascending, take the virtual index `q*(n-1)/100` and
interpolate between its two neighbouring order statistics. -/
def percentile (xs : List ℚ) (q : ℚ) : ℚ :=
  if xs.isEmpty then 0
  else
    let s := List.insertionSort (fun a b => a ≤ b) xs
    let n := s.length
    let pos := q * ((n : ℚ) - 1) / 100
    let i := (⌊pos⌋).toNat
    let lo := s.getD i 0
    let hi := s.getD (min (i + 1) (n - 1)) 0
    lo + (pos - (⌊pos⌋ : ℚ)) * (hi - lo)

/-- `np.mean` (0 on the empty list, where numpy yields NaN). -/
def listMean (xs : List ℚ) : ℚ := xs.sum / xs.length

/-- `np.max` on a nonempty list. -/
def listMax (xs : List ℚ) : ℚ := xs.foldl max (xs.headD 0)

/-- `np.min` on a nonempty list. -/
def listMin (xs : List ℚ) : ℚ := xs.foldl min (xs.headD 0)

/-- `np.mean(xs >= t)`: the fraction of entries at least `t`. -/
def fracAtLeast (xs : List ℚ) (t : ℚ) : ℚ :=
  (xs.countP (fun b => decide (t ≤ b)) : ℚ) / (xs.length : ℚ)

/-- The final-year summary statistics of `/simulate`
(src/app.py lines 357-382). -/
structure SimStats where
  median_final : ℚ
  mean_final : ℚ
  p10_final : ℚ
  p90_final : ℚ
  best_case : ℚ
  worst_case : ℚ
  total_invested : ℚ
  prob_double : ℚ
  prob_positive : ℚ
  deriving DecidableEq, Repr

/-- The output of `/simulate`: five percentile bands (one rounded value
per modeled year) and the final-year statistics. -/
structure SimResult where
  p10 : List ℚ
  p25 : List ℚ
  p50 : List ℚ
  p75 : List ℚ
  p90 : List ℚ
  stats : SimStats
  deriving DecidableEq, Repr

/-- The `/simulate` computation of src/app.py (lines 289-382) with the
monthly body abstracted; `rets sim year month` is the `monthly_return`
drawn at that iteration.  `np.median` equals the 50th percentile with
linear interpolation, so it is embedded as `percentile · 50`. -/
def simulateWith (p : SimParams) (mstep : Bool → ℚ → ℚ → ℚ)
    (rets : ℕ → ℤ → ℕ → ℚ) : SimResult :=
  let runs := (List.range p.num_simulations).map
    (fun sim => simRunWith p mstep (rets sim))
  let all_paths := runs.map (fun st => st.1)
  let final_balances := runs.map (fun st => st.2)
  let T := (simTotalYears p).toNat
  let col := fun j => all_paths.map (fun path => path.getD j 0)
  let band := fun q => (List.range T).map (fun j => pyRound 2 (percentile (col j) q))
  let total_invested :=
    p.starting_amount + monthlyContribution p * 12 * (p.contribution_years : ℚ)
  { p10 := band 10
    p25 := band 25
    p50 := band 50
    p75 := band 75
    p90 := band 90
    stats :=
      { median_final := pyRound 2 (percentile final_balances 50)
        mean_final := pyRound 2 (listMean final_balances)
        p10_final := pyRound 2 (percentile final_balances 10)
        p90_final := pyRound 2 (percentile final_balances 90)
        best_case := pyRound 2 (listMax final_balances)
        worst_case := pyRound 2 (listMin final_balances)
        total_invested := pyRound 2 total_invested
        prob_double := pyRound 1 (100 * fracAtLeast final_balances (total_invested * 2))
        prob_positive := pyRound 1 (100 * fracAtLeast final_balances total_invested) } }

/-- The `/simulate` computation with the code's month body. -/
def simulate (p : SimParams) (rets : ℕ → ℤ → ℕ → ℚ) : SimResult :=
  simulateWith p (simMonthStep p) rets

/-- Modelled from the spec's words (§4.1 and §4.2): the month's
contribution — the phase amount, monthly always and yearly only in month
0 — is added at the start of the month, then interest accrues, then the
fee is deducted; no end-of-period contribution variant exists.  The
bookkeeping fields mirror §4.2's deposit/interest/fee accounting. -/
def monthStepSpecB (p : InvParams) (inPhase : Bool) (month : ℕ) (s : MState) : MState :=
  let r := p.return_rate / 100
  let total_fee_rate := (p.fund_fee + p.platform_fee) / 100
  let s1 :=
    if inPhase then
      if p.contribution_frequency == "monthly" then addContribution p s
      else if (p.contribution_frequency == "yearly") && (month == 0) then
        addContribution p s
      else s
    else s
  let monthly_interest := s1.balance * (r / 12)
  let monthly_interest_no_fees := s1.balance_no_fees * (r / 12)
  let s2 :=
    { s1 with
      balance := s1.balance + monthly_interest
      balance_no_fees := s1.balance_no_fees + monthly_interest_no_fees
      year_interest := s1.year_interest + monthly_interest
      year_interest_no_fees := s1.year_interest_no_fees + monthly_interest_no_fees
      cumulative_interest := s1.cumulative_interest + monthly_interest }
  let monthly_fee := s2.balance * (total_fee_rate / 12)
  { s2 with
    balance := s2.balance - monthly_fee
    year_fees := s2.year_fees + monthly_fee
    total_fees := s2.total_fees + monthly_fee }

/-- The deterministic projector as the spec describes it: contributions
always at the start of the month (`monthStepSpecB`), same scaffolding. -/
def calculate_investment_specB (p : InvParams) : InvestmentResult :=
  calcWith p (monthStepSpecB p)

/-- Modelled from the spec's words (§4.3 per-month update):
`balance = (balance + contribution[month]) * random_factor * fee_factor`,
the contribution added at the start of the month. -/
def simMonthStepSpecB (p : SimParams) (inPhase : Bool) (ret : ℚ) (b : ℚ) : ℚ :=
  let b1 := if inPhase then b + monthlyContribution p else b
  b1 * (1 + ret) * (1 - (p.fund_fee + p.platform_fee) / 12)

/-- The Monte Carlo engine as the spec describes it (one path). -/
def simRunSpecB (p : SimParams) (rets : ℤ → ℕ → ℚ) : List ℚ × ℚ :=
  simRunWith p (simMonthStepSpecB p) rets

/-- The deterministic parameters re-expressed as Monte Carlo parameters
exactly as the `/simulate` route does (src/app.py lines 268-279):
rates and fees divided by 100, volatility 0, `n` simulated paths. -/
def toSimParams (p : InvParams) (n : ℕ) : SimParams :=
  { starting_amount := p.starting_amount
    contribution_years := p.contribution_years
    growth_years := p.growth_years
    expected_return := p.return_rate / 100
    volatility := 0
    contribution := p.contribution
    contribution_frequency := p.contribution_frequency
    contribution_timing := p.contribution_timing
    fund_fee := p.fund_fee / 100
    platform_fee := p.platform_fee / 100
    delay_years := p.delay_years
    num_simulations := n }

/-- With `volatility = 0` the lognormal draw of src/app.py lines 321-327
is `exp(ln(1 + monthly_expected) - 0) = 1 + monthly_expected` exactly, so
every month's `monthly_return` degenerates to `expected_return / 12`. -/
def volZeroReturn (p : SimParams) : ℚ := p.expected_return / 12

/-- A `foldl` preserves any invariant its step preserves. -/
theorem foldl_inv {α ι : Type} {P : α → Prop} (f : α → ι → α) :
    ∀ (l : List ι) (a : α), P a → (∀ x i, i ∈ l → P x → P (f x i)) →
      P (l.foldl f a) := by
  intro l
  induction l with
  | nil => intro a ha _; exact ha
  | cons i t ih =>
    intro a ha hstep
    exact ih (f a i) (hstep a i (List.mem_cons_self i t) ha)
      (fun x j hj hx => hstep x j (List.mem_cons_of_mem i hj) hx)

/-- Two `foldl`s stay related by any relation their steps preserve. -/
theorem foldl_rel {α β ι : Type} (R : α → β → Prop) (f : α → ι → α)
    (g : β → ι → β) :
    ∀ (l : List ι) (a : α) (b : β), R a b →
      (∀ x y i, i ∈ l → R x y → R (f x i) (g y i)) →
      R (l.foldl f a) (l.foldl g b) := by
  intro l
  induction l with
  | nil => intro a b hab _; exact hab
  | cons i t ih =>
    intro a b hab hstep
    exact ih (f a i) (g b i) (hstep a b i (List.mem_cons_self i t) hab)
      (fun x y j hj hxy => hstep x y j (List.mem_cons_of_mem i hj) hxy)

/-- The fee-inclusive balance after one month of `calculate_investment`,
as a function of the balance alone (the month body reads no other state
into the balance). -/
def detBalStep (p : InvParams) (inPhase : Bool) (month : ℕ) (b : ℚ) : ℚ :=
  let b1 :=
    if inPhase && (p.contribution_timing == "beginning") then
      if p.contribution_frequency == "monthly" then b + p.contribution
      else if (p.contribution_frequency == "yearly") && (month == 0) then
        b + p.contribution
      else b
    else b
  let b3 := b1 * (1 + p.return_rate / 1200)
    * (1 - (p.fund_fee + p.platform_fee) / 1200)
  if inPhase && (p.contribution_timing == "end") then
    if p.contribution_frequency == "monthly" then b3 + p.contribution
    else if (p.contribution_frequency == "yearly") && (month == 11) then
      b3 + p.contribution
    else b3
  else b3

/-- The fee-free shadow balance after one month of `calculate_investment`,
as a function of that balance alone. -/
def detBnfStep (p : InvParams) (inPhase : Bool) (month : ℕ) (b : ℚ) : ℚ :=
  let b1 :=
    if inPhase && (p.contribution_timing == "beginning") then
      if p.contribution_frequency == "monthly" then b + p.contribution
      else if (p.contribution_frequency == "yearly") && (month == 0) then
        b + p.contribution
      else b
    else b
  let b2 := b1 * (1 + p.return_rate / 1200)
  if inPhase && (p.contribution_timing == "end") then
    if p.contribution_frequency == "monthly" then b2 + p.contribution
    else if (p.contribution_frequency == "yearly") && (month == 11) then
      b2 + p.contribution
    else b2
  else b2

theorem monthStep_balance (p : InvParams) (ip : Bool) (mo : ℕ) (s : MState) :
    (monthStep p ip mo s).balance = detBalStep p ip mo s.balance := by
  simp only [monthStep, detBalStep, addContribution]
  split_ifs <;> simp <;> ring

theorem monthStep_bnf (p : InvParams) (ip : Bool) (mo : ℕ) (s : MState) :
    (monthStep p ip mo s).balance_no_fees = detBnfStep p ip mo s.balance_no_fees := by
  simp only [monthStep, detBnfStep, addContribution]
  split_ifs <;> simp <;> ring

/-- Each month changes the balance by exactly (deposits added)
+ (interest added) - (fees added): the bookkeeping counters track the
balance updates. -/
theorem monthStep_delta (p : InvParams) (ip : Bool) (mo : ℕ) (s : MState) :
    (monthStep p ip mo s).balance - s.balance
      = ((monthStep p ip mo s).year_deposits - s.year_deposits)
        + ((monthStep p ip mo s).year_interest - s.year_interest)
        - ((monthStep p ip mo s).total_fees - s.total_fees) := by
  simp only [monthStep, addContribution]
  split_ifs <;> simp <;> ring

/-- The balance/counter accounting invariant of the yearly loop state. -/
def YAcc (S : ℚ) (y : YState) : Prop :=
  y.balance = S + y.total_contributions + y.total_interest - y.total_fees

theorem runYearWith_acc (p : InvParams) (S : ℚ) (y : YState) (year : ℤ)
    (h : YAcc S y) : YAcc S (runYearWith p (monthStep p) y year) := by
  unfold YAcc at h ⊢
  unfold runYearWith
  set ip := decide (year ≤ p.contribution_years) with hip
  set m0 : MState :=
    { balance := y.balance
      balance_no_fees := y.balance_no_fees
      year_interest := 0
      year_interest_no_fees := 0
      year_deposits := 0
      year_fees := 0
      cumulative_contributions := y.cumulative_contributions
      cumulative_interest := y.cumulative_interest
      total_fees := y.total_fees } with hm0
  have hmonths : ∀ (m : MState),
      m = (List.range 12).foldl (fun s month => monthStep p ip month s) m0 →
      m.balance = y.balance + m.year_deposits + m.year_interest
        - (m.total_fees - y.total_fees) := by
    intro m hm
    subst hm
    refine foldl_inv (P := fun (m : MState) => m.balance = y.balance
      + m.year_deposits + m.year_interest - (m.total_fees - y.total_fees))
      _ _ _ ?_ ?_
    · simp [hm0]
    · intro x i _ hx
      have := monthStep_delta p ip i x
      linarith
  have hm := hmonths _ rfl
  simp only []
  linarith [hm]

/-- C1 helper: the accounting identity holds of the final yearly state. -/
theorem calcWith_acc (p : InvParams) :
    YAcc p.starting_amount
      ((pyRange 1 (p.contribution_years + p.growth_years + 1)).foldl
        (runYearWith p (monthStep p)) (initYState p)) := by
  refine foldl_inv (P := YAcc p.starting_amount) _ _ _ ?_ ?_
  · unfold YAcc initYState; simp
  · intro y year _ hy
    exact runYearWith_acc p _ y year hy

/-- C1: for every run of `calculate_investment`, the returned result
satisfies the accounting identity `end_balance = starting_amount +
total_contributions + total_interest - total_fees`, exactly over ℚ
(hence within any floating-point tolerance). -/
theorem accounting_identity (p : InvParams) :
    (calculate_investment p).end_balance
      = (calculate_investment p).starting_amount
        + (calculate_investment p).total_contributions
        + (calculate_investment p).total_interest
        - (calculate_investment p).total_fees := by
  have h := calcWith_acc p
  unfold YAcc at h
  unfold calculate_investment calcWith
  simpa using h

theorem pyRange_length (a b : ℤ) : (pyRange a b).length = (b - a).toNat := by
  rw [pyRange, List.length_map, List.length_range]

/-- With zero contribution and zero fees, a month multiplies the balance
by `1 + return_rate/1200`. -/
theorem detBalStep_noContrib_noFees (p : InvParams) (hc : p.contribution = 0)
    (hff : p.fund_fee = 0) (hpf : p.platform_fee = 0) (ip : Bool) (mo : ℕ)
    (b : ℚ) : detBalStep p ip mo b = b * (1 + p.return_rate / 1200) := by
  unfold detBalStep
  simp only [hc, hff, hpf]
  split_ifs <;> ring

theorem months_balance_noContrib_noFees (p : InvParams)
    (hc : p.contribution = 0) (hff : p.fund_fee = 0) (hpf : p.platform_fee = 0) :
    ∀ (n : ℕ) (ip : Bool) (s : MState),
      ((List.range n).foldl (fun s mo => monthStep p ip mo s) s).balance
        = s.balance * (1 + p.return_rate / 1200) ^ n := by
  intro n
  induction n with
  | zero => intro ip s; simp
  | succ k ih =>
    intro ip s
    rw [List.range_succ, List.foldl_append]
    simp only [List.foldl_cons, List.foldl_nil]
    rw [monthStep_balance, detBalStep_noContrib_noFees p hc hff hpf, ih]
    ring

theorem runYearWith_balance_noContrib_noFees (p : InvParams)
    (hc : p.contribution = 0) (hff : p.fund_fee = 0) (hpf : p.platform_fee = 0)
    (y : YState) (year : ℤ) :
    (runYearWith p (monthStep p) y year).balance
      = y.balance * (1 + p.return_rate / 1200) ^ 12 := by
  unfold runYearWith
  exact months_balance_noContrib_noFees p hc hff hpf 12 _ _

/-- C5: with zero contribution in every month and zero fund and platform
fees, `end_balance = starting_amount * (1 + r/12)^(12*years)` for annual
rate `r = return_rate/100`, exactly over ℚ. -/
theorem closed_form_no_contrib_no_fees (p : InvParams)
    (hc : p.contribution = 0) (hff : p.fund_fee = 0) (hpf : p.platform_fee = 0) :
    (calculate_investment p).end_balance
      = p.starting_amount * (1 + p.return_rate / 100 / 12)
          ^ (12 * (p.contribution_years + p.growth_years).toNat) := by
  have hyears : ∀ (l : List ℤ) (y : YState),
      (l.foldl (runYearWith p (monthStep p)) y).balance
        = y.balance * ((1 + p.return_rate / 1200) ^ 12) ^ l.length := by
    intro l
    induction l with
    | nil => intro y; simp
    | cons a t ih =>
      intro y
      simp only [List.foldl_cons, List.length_cons]
      rw [ih, runYearWith_balance_noContrib_noFees p hc hff hpf]
      ring
  unfold calculate_investment calcWith
  simp only []
  rw [hyears]
  have hq : (1 : ℚ) + p.return_rate / 100 / 12 = 1 + p.return_rate / 1200 := by
    ring
  rw [hq, pow_mul, pyRange_length, initYState]
  norm_num

set_option maxRecDepth 40000 in
/-- Scenario A for C5: starting 1000, a 1-year horizon with no
contribution phase, 12% annual return, no fees, gives exactly
1000·1.01¹² and hence a balance within a cent of 1126.83. -/
theorem closed_form_witness :
    (calculate_investment ⟨1000, 0, 1, 12, 0, "monthly", "end", 0, 0, 0⟩).end_balance
      = 1000 * (1 + (12 : ℚ) / 100 / 12) ^ (12 * 1)
    ∧ |(calculate_investment
        ⟨1000, 0, 1, 12, 0, "monthly", "end", 0, 0, 0⟩).end_balance
        - 112683 / 100| < 1 / 100 := by
  constructor
  · exact closed_form_no_contrib_no_fees
      ⟨1000, 0, 1, 12, 0, "monthly", "end", 0, 0, 0⟩ rfl rfl rfl
  · rw [abs_sub_lt_iff]
    constructor <;> exact of_decide_eq_true (by with_unfolding_all rfl)

theorem mem_pyRange {a b z : ℤ} : z ∈ pyRange a b ↔ a ≤ z ∧ z < b := by
  unfold pyRange
  simp only [List.mem_map, List.mem_range]
  constructor
  · rintro ⟨i, hi, rfl⟩
    omega
  · rintro ⟨h1, h2⟩
    exact ⟨(z - a).toNat, by omega, by omega⟩

theorem pyRange_snoc (a b : ℤ) (h : a ≤ b) :
    pyRange a (b + 1) = pyRange a b ++ [b] := by
  unfold pyRange
  have h1 : (b + 1 - a).toNat = (b - a).toNat + 1 := by omega
  rw [h1, List.range_succ, List.map_append]
  simp only [List.map_cons, List.map_nil]
  congr 2
  omega

theorem pyRange_split (a b c : ℤ) (h1 : a ≤ b) (h2 : b ≤ c) :
    pyRange a c = pyRange a b ++ pyRange b c := by
  have key : ∀ (n : ℕ) (b : ℤ), a ≤ b → b + n = c →
      pyRange a c = pyRange a b ++ pyRange b c := by
    intro n
    induction n with
    | zero =>
      intro b hab hbc
      have : b = c := by omega
      subst this
      simp [pyRange]
    | succ k ih =>
      intro b hab hbc
      have hsplit := ih (b + 1) (by omega) (by omega)
      rw [hsplit, pyRange_snoc a b hab]
      have hmid : pyRange b c = b :: pyRange (b + 1) c := by
        unfold pyRange
        have hk : (c - b).toNat = (c - (b + 1)).toNat + 1 := by omega
        rw [hk, List.range_succ_eq_map]
        simp only [List.map_cons, List.map_map, Nat.cast_zero, add_zero]
        congr 1
        apply List.map_congr_left
        intro i _
        simp only [Function.comp_apply]
        push_cast
        ring
      rw [hmid]
      simp only [List.append_assoc, List.singleton_append]
  exact key (c - b).toNat b h1 (by omega)

/-- A yearly-loop iteration with `year ≠ contribution_years` leaves
`phase1_end_balance` unchanged (src/app.py lines 153-155). -/
theorem runYearWith_p1eb_of_ne (p : InvParams) (mstep : Bool → ℕ → MState → MState)
    (y : YState) (year : ℤ) (h : year ≠ p.contribution_years) :
    (runYearWith p mstep y year).phase1_end_balance = y.phase1_end_balance := by
  unfold runYearWith
  simp only [if_neg h]

theorem fold_p1eb_of_ne (p : InvParams) (mstep : Bool → ℕ → MState → MState) :
    ∀ (l : List ℤ), (∀ z ∈ l, z ≠ p.contribution_years) → ∀ (y : YState),
      (l.foldl (runYearWith p mstep) y).phase1_end_balance
        = y.phase1_end_balance := by
  intro l
  induction l with
  | nil => intro _ y; rfl
  | cons a t ih =>
    intro hl y
    simp only [List.foldl_cons]
    rw [ih (fun z hz => hl z (List.mem_cons_of_mem a hz))]
    exact runYearWith_p1eb_of_ne p mstep y a (hl a (List.mem_cons_self a t))

/-- After running years 1..contribution_years (with contribution_years ≥ 1),
`phase1_end_balance` equals the current balance: the iteration with
`year == contribution_years` just set it. -/
theorem fold_p1eb_at_cy (p : InvParams) (mstep : Bool → ℕ → MState → MState)
    (hcy : 1 ≤ p.contribution_years) :
    ((pyRange 1 (p.contribution_years + 1)).foldl (runYearWith p mstep)
        (initYState p)).phase1_end_balance
      = ((pyRange 1 (p.contribution_years + 1)).foldl (runYearWith p mstep)
        (initYState p)).balance := by
  rw [pyRange_snoc 1 p.contribution_years hcy, List.foldl_append]
  simp only [List.foldl_cons, List.foldl_nil]
  set y := (pyRange 1 p.contribution_years).foldl (runYearWith p mstep) (initYState p)
  unfold runYearWith
  dsimp only
  rw [if_pos rfl]

set_option maxRecDepth 100000 in
/-- C2 counterexample: with 1 contribution year followed by 1 growth year
at 12% and no fees, `phase1_end_balance` (1000·1.01¹²) differs from
`end_balance` (1000·1.01²⁴): it is recorded at the end of the
contribution phase, not at the final modeled year. -/
theorem phase1_end_balance_cex :
    (calculate_investment
        ⟨1000, 1, 1, 12, 0, "monthly", "end", 0, 0, 0⟩).phase1_end_balance
      ≠ (calculate_investment
        ⟨1000, 1, 1, 12, 0, "monthly", "end", 0, 0, 0⟩).end_balance :=
  of_decide_eq_true (by with_unfolding_all rfl)

/-- C2 amended: for contribution_years ≥ 1 and growth_years ≥ 0,
`phase1_end_balance` is the fee-inclusive balance at the close of year
`contribution_years` (the end of the contribution phase); it equals the
final balance only in the special case growth_years = 0. -/
theorem phase1_end_balance_is_contribution_phase_end (p : InvParams)
    (hcy : 1 ≤ p.contribution_years) (hgy : 0 ≤ p.growth_years) :
    (calculate_investment p).phase1_end_balance
      = ((pyRange 1 (p.contribution_years + 1)).foldl
          (runYearWith p (monthStep p)) (initYState p)).balance
    ∧ (p.growth_years = 0 →
        (calculate_investment p).phase1_end_balance
          = (calculate_investment p).end_balance) := by
  unfold calculate_investment calcWith
  simp only [if_neg (by omega : ¬ p.contribution_years = 0)]
  have hsplit : pyRange 1 (p.contribution_years + p.growth_years + 1)
      = pyRange 1 (p.contribution_years + 1)
        ++ pyRange (p.contribution_years + 1)
          (p.contribution_years + p.growth_years + 1) := by
    exact pyRange_split 1 (p.contribution_years + 1)
      (p.contribution_years + p.growth_years + 1) (by omega) (by omega)
  rw [hsplit, List.foldl_append]
  constructor
  · rw [fold_p1eb_of_ne p (monthStep p) _
      (fun z hz => by have := mem_pyRange.1 hz; omega)]
    exact fold_p1eb_at_cy p (monthStep p) hcy
  · intro hg0
    have hempty : pyRange (p.contribution_years + 1)
        (p.contribution_years + p.growth_years + 1) = [] := by
      rw [hg0]
      simp only [add_zero]
      unfold pyRange
      simp
    rw [hempty]
    simp only [List.foldl_nil]
    exact fold_p1eb_at_cy p (monthStep p) hcy

/-- C2 amended, witness at contribution_years = 1, growth_years = 1. -/
theorem phase1_end_balance_witness :
    (calculate_investment
        ⟨1000, 1, 1, 12, 0, "monthly", "end", 0, 0, 0⟩).phase1_end_balance
      = ((pyRange 1 (1 + 1)).foldl
          (runYearWith ⟨1000, 1, 1, 12, 0, "monthly", "end", 0, 0, 0⟩
            (monthStep ⟨1000, 1, 1, 12, 0, "monthly", "end", 0, 0, 0⟩))
          (initYState ⟨1000, 1, 1, 12, 0, "monthly", "end", 0, 0, 0⟩)).balance :=
  (phase1_end_balance_is_contribution_phase_end
    ⟨1000, 1, 1, 12, 0, "monthly", "end", 0, 0, 0⟩
    (by decide) (by decide)).1

/-- With the timing flag set to "beginning" the code's month body is the
spec's beginning-of-month body: the end-of-month branch is dead. -/
theorem monthStep_eq_specB (p : InvParams) (h : p.contribution_timing = "beginning")
    (ip : Bool) (mo : ℕ) (s : MState) :
    monthStep p ip mo s = monthStepSpecB p ip mo s := by
  unfold monthStep monthStepSpecB
  rw [h]
  simp

theorem simMonthStep_eq_specB (q : SimParams) (h : q.contribution_timing = "beginning")
    (ip : Bool) (ret b : ℚ) :
    simMonthStep q ip ret b = simMonthStepSpecB q ip ret b := by
  unfold simMonthStep simMonthStepSpecB
  rw [h]
  simp

set_option maxRecDepth 100000 in
/-- C3 counterexample: with the end-of-period timing flag (the boundary
layer's default), the deterministic projector's result differs from the
spec's contributions-at-start-of-month engine on the same inputs, so the
code does model an end-of-period contribution timing variant. -/
theorem contribution_timing_cex :
    (calculate_investment
        ⟨0, 1, 0, 1200, 100, "monthly", "end", 0, 0, 0⟩).end_balance
      ≠ (calculate_investment_specB
        ⟨0, 1, 0, 1200, 100, "monthly", "end", 0, 0, 0⟩).end_balance :=
  of_decide_eq_true (by with_unfolding_all rfl)

/-- C3 amended: contributions are added at the start of the month, before
interest and fees, exactly when `contribution_timing = "beginning"`; with
that flag both engines coincide with the spec's start-of-month engines.
(With `"end"`, the code adds contributions after interest and fees.) -/
theorem contribution_timing_beginning_matches_spec (p : InvParams)
    (q : SimParams) (rets : ℤ → ℕ → ℚ)
    (hp : p.contribution_timing = "beginning")
    (hq : q.contribution_timing = "beginning") :
    calculate_investment p = calculate_investment_specB p
    ∧ simRun q rets = simRunSpecB q rets := by
  constructor
  · unfold calculate_investment calculate_investment_specB
    rw [show monthStep p = monthStepSpecB p from funext fun ip =>
      funext fun mo => funext fun s => monthStep_eq_specB p hp ip mo s]
  · unfold simRun simRunSpecB
    rw [show simMonthStep q = simMonthStepSpecB q from funext fun ip =>
      funext fun r => funext fun b => simMonthStep_eq_specB q hq ip r b]

/-- C3 amended, witness with the "beginning" flag on both engines. -/
theorem contribution_timing_witness :
    calculate_investment ⟨0, 1, 0, 1200, 100, "monthly", "beginning", 0, 0, 0⟩
      = calculate_investment_specB
          ⟨0, 1, 0, 1200, 100, "monthly", "beginning", 0, 0, 0⟩
    ∧ simRun ⟨0, 1, 0, 12, 0, 100, "monthly", "beginning", 0, 0, 0, 1⟩
          (fun _ _ => 0)
      = simRunSpecB ⟨0, 1, 0, 12, 0, 100, "monthly", "beginning", 0, 0, 0, 1⟩
          (fun _ _ => 0) :=
  contribution_timing_beginning_matches_spec
    ⟨0, 1, 0, 1200, 100, "monthly", "beginning", 0, 0, 0⟩
    ⟨0, 1, 0, 12, 0, 100, "monthly", "beginning", 0, 0, 0, 1⟩
    (fun _ _ => 0) rfl rfl

theorem fold_schedule_length (p : InvParams) (mstep : Bool → ℕ → MState → MState) :
    ∀ (l : List ℤ) (y : YState),
      (l.foldl (runYearWith p mstep) y).schedule.length
        = y.schedule.length + l.length := by
  intro l
  induction l with
  | nil => intro y; simp
  | cons a t ih =>
    intro y
    simp only [List.foldl_cons, List.length_cons]
    rw [ih]
    have : (runYearWith p mstep y a).schedule.length = y.schedule.length + 1 := by
      unfold runYearWith
      simp
    omega

/-- With a frequency string that is neither "monthly" nor "yearly", a
month adds no deposit (both contribution branches are dead). -/
theorem monthStep_deposits_of_unknown_freq (p : InvParams)
    (h1 : p.contribution_frequency ≠ "monthly")
    (h2 : p.contribution_frequency ≠ "yearly") (ip : Bool) (mo : ℕ) (s : MState) :
    (monthStep p ip mo s).year_deposits = s.year_deposits := by
  unfold monthStep
  simp [beq_eq_false_iff_ne.mpr h1, beq_eq_false_iff_ne.mpr h2]

theorem runYearWith_tc_of_unknown_freq (p : InvParams)
    (h1 : p.contribution_frequency ≠ "monthly")
    (h2 : p.contribution_frequency ≠ "yearly") (y : YState) (year : ℤ) :
    (runYearWith p (monthStep p) y year).total_contributions
      = y.total_contributions := by
  unfold runYearWith
  dsimp only
  have hm : ∀ (m : MState),
      m = (List.range 12).foldl
        (fun s month => monthStep p (decide (year ≤ p.contribution_years)) month s)
        { balance := y.balance
          balance_no_fees := y.balance_no_fees
          year_interest := 0
          year_interest_no_fees := 0
          year_deposits := 0
          year_fees := 0
          cumulative_contributions := y.cumulative_contributions
          cumulative_interest := y.cumulative_interest
          total_fees := y.total_fees } →
      m.year_deposits = 0 := by
    intro m hm
    subst hm
    refine foldl_inv (P := fun (m : MState) => m.year_deposits = 0) _ _ _ rfl ?_
    intro x i _ hx
    rw [monthStep_deposits_of_unknown_freq p h1 h2, hx]
  rw [hm _ rfl]
  ring

set_option maxRecDepth 40000 in
/-- C4 counterexample: on the degenerate parameter set with zero modeled
years (an "end_age ≤ start_age" horizon), `calculate_investment` runs to
completion and returns a result with an empty schedule and the starting
amount as end balance, instead of refusing with an InvalidParameter
failure. -/
theorem no_validation_cex :
    (calculate_investment ⟨5, 0, 0, 6, 0, "monthly", "end", 0, 0, 0⟩).schedule = []
    ∧ (calculate_investment ⟨5, 0, 0, 6, 0, "monthly", "end", 0, 0, 0⟩).end_balance
        = 5 :=
  of_decide_eq_true (by with_unfolding_all rfl)

/-- C4 amended: the core performs no parameter validation: for every
parameter set, valid or not, it returns a result whose schedule has
exactly `max 0 delay_years + max 0 (contribution_years + growth_years)`
rows (empty on a degenerate horizon), and an unknown contribution
frequency value is accepted silently, contributing nothing. -/
theorem no_parameter_validation (p : InvParams) :
    (calculate_investment p).schedule.length
      = p.delay_years.toNat + (p.contribution_years + p.growth_years).toNat
    ∧ (p.contribution_frequency ≠ "monthly" → p.contribution_frequency ≠ "yearly" →
        (calculate_investment p).total_contributions = 0) := by
  constructor
  · unfold calculate_investment calcWith
    dsimp only
    rw [fold_schedule_length]
    unfold initYState delayRows
    simp only [List.length_map, pyRange_length]
    omega
  · intro h1 h2
    unfold calculate_investment calcWith
    dsimp only
    refine foldl_inv (P := fun (y : YState) => y.total_contributions = 0) _ _ _ ?_ ?_
    · rfl
    · intro y year _ hy
      rw [runYearWith_tc_of_unknown_freq p h1 h2, hy]

/-- C4 amended, witness with an unknown frequency value. -/
theorem no_parameter_validation_witness :
    (calculate_investment
        ⟨5, 1, 0, 6, 100, "weekly", "end", 0, 0, 0⟩).total_contributions = 0 :=
  (no_parameter_validation ⟨5, 1, 0, 6, 100, "weekly", "end", 0, 0, 0⟩).2
    (by decide) (by decide)

set_option maxRecDepth 100000 in
/-- C7 counterexample: with a (huge but strictly positive) combined fee
of 3600%, the monthly fee factor is 1 - 36/12 = -2, and the fee-inclusive
balance explodes to 1000·(-2)¹² = 4096000 > 1000 = balance_without_fees:
the claimed inequality fails for this positive fee rate. -/
theorem fee_monotonicity_cex :
    (calculate_investment
        ⟨1000, 0, 1, 0, 0, "monthly", "end", 3600, 0, 0⟩).balance_without_fees
      < (calculate_investment
        ⟨1000, 0, 1, 0, 0, "monthly", "end", 3600, 0, 0⟩).end_balance :=
  of_decide_eq_true (by with_unfolding_all rfl)

/-- One month preserves `0 ≤ balance ≤ balance_no_fees`, provided the
contribution is nonnegative and both monthly factors are nonnegative. -/
theorem detBalStep_pair_le (p : InvParams) (hc : 0 ≤ p.contribution)
    (hq : 0 ≤ 1 + p.return_rate / 1200)
    (hf0 : 0 ≤ p.fund_fee + p.platform_fee)
    (hf1 : p.fund_fee + p.platform_fee ≤ 1200)
    (ip : Bool) (mo : ℕ) {b bn : ℚ} (hb : 0 ≤ b) (hle : b ≤ bn) :
    0 ≤ detBalStep p ip mo b ∧ detBalStep p ip mo b ≤ detBnfStep p ip mo bn := by
  unfold detBalStep detBnfStep
  set q := 1 + p.return_rate / 1200 with hqdef
  set g := 1 - (p.fund_fee + p.platform_fee) / 1200 with hgdef
  have hg0 : 0 ≤ g := by rw [hgdef]; linarith
  have hg1 : g ≤ 1 := by rw [hgdef]; linarith
  have hbc : (0:ℚ) ≤ b + p.contribution := by linarith
  have hbn : (0:ℚ) ≤ bn := le_trans hb hle
  have h1 : 0 ≤ (b + p.contribution) * q * g :=
    mul_nonneg (mul_nonneg hbc hq) hg0
  have h3 : 0 ≤ b * q * g := mul_nonneg (mul_nonneg hb hq) hg0
  have t1 : (b + p.contribution) * q * g ≤ (b + p.contribution) * q * 1 :=
    mul_le_mul_of_nonneg_left hg1 (mul_nonneg hbc hq)
  have t2 : (b + p.contribution) * q ≤ (bn + p.contribution) * q :=
    mul_le_mul_of_nonneg_right (by linarith) hq
  have t3 : b * q * g ≤ b * q * 1 :=
    mul_le_mul_of_nonneg_left hg1 (mul_nonneg hb hq)
  have t4 : b * q ≤ bn * q := mul_le_mul_of_nonneg_right hle hq
  rw [mul_one] at t1 t3
  split_ifs <;> constructor <;> (dsimp only; linarith)

theorem monthStep_pair (p : InvParams) (hc : 0 ≤ p.contribution)
    (hq : 0 ≤ 1 + p.return_rate / 1200)
    (hf0 : 0 ≤ p.fund_fee + p.platform_fee)
    (hf1 : p.fund_fee + p.platform_fee ≤ 1200) (ip : Bool) (mo : ℕ)
    {s : MState} (h1 : 0 ≤ s.balance) (h2 : s.balance ≤ s.balance_no_fees) :
    0 ≤ (monthStep p ip mo s).balance
    ∧ (monthStep p ip mo s).balance ≤ (monthStep p ip mo s).balance_no_fees := by
  rw [monthStep_balance, monthStep_bnf]
  exact detBalStep_pair_le p hc hq hf0 hf1 ip mo h1 h2

/-- The yearly-loop invariant for fee monotonicity. -/
def FeeInv (y : YState) : Prop :=
  0 ≤ y.balance ∧ y.balance ≤ y.balance_no_fees
  ∧ ∀ yd ∈ y.schedule, yd.ending_balance ≤ yd.balance_without_fees

theorem runYearWith_feeInv (p : InvParams) (hc : 0 ≤ p.contribution)
    (hq : 0 ≤ 1 + p.return_rate / 1200)
    (hf0 : 0 ≤ p.fund_fee + p.platform_fee)
    (hf1 : p.fund_fee + p.platform_fee ≤ 1200) (y : YState) (year : ℤ)
    (h : FeeInv y) : FeeInv (runYearWith p (monthStep p) y year) := by
  obtain ⟨hb, hbn, hsched⟩ := h
  unfold runYearWith
  dsimp only
  have hm : ∀ (m : MState),
      m = (List.range 12).foldl
        (fun s month => monthStep p (decide (year ≤ p.contribution_years)) month s)
        { balance := y.balance
          balance_no_fees := y.balance_no_fees
          year_interest := 0
          year_interest_no_fees := 0
          year_deposits := 0
          year_fees := 0
          cumulative_contributions := y.cumulative_contributions
          cumulative_interest := y.cumulative_interest
          total_fees := y.total_fees } →
      0 ≤ m.balance ∧ m.balance ≤ m.balance_no_fees := by
    intro m hmdef
    subst hmdef
    refine foldl_inv
      (P := fun (m : MState) => 0 ≤ m.balance ∧ m.balance ≤ m.balance_no_fees)
      _ _ _ ⟨hb, hbn⟩ ?_
    intro x i _ hx
    exact monthStep_pair p hc hq hf0 hf1 _ i hx.1 hx.2
  obtain ⟨hmb, hmle⟩ := hm _ rfl
  refine ⟨hmb, hmle, ?_⟩
  intro yd hyd
  rcases List.mem_append.1 hyd with hold | hnew
  · exact hsched yd hold
  · rcases List.mem_singleton.1 hnew with rfl
    exact hmle

/-- C7 amended: for a strictly positive combined fee rate not exceeding
1200% (so the monthly fee factor stays nonnegative), a monthly return
factor 1 + r/12 ≥ 0 (return_rate ≥ -1200), and nonnegative starting
amount and contribution, the fee-free shadow balance dominates the
fee-inclusive balance in every ledger row and at the horizon. -/
theorem fee_monotonicity (p : InvParams)
    (hS : 0 ≤ p.starting_amount) (hc : 0 ≤ p.contribution)
    (hfpos : 0 < p.fund_fee + p.platform_fee)
    (hq : 0 ≤ 1 + p.return_rate / 1200)
    (hf1 : p.fund_fee + p.platform_fee ≤ 1200) :
    (∀ yd ∈ (calculate_investment p).schedule,
        yd.ending_balance ≤ yd.balance_without_fees)
    ∧ (calculate_investment p).end_balance
        ≤ (calculate_investment p).balance_without_fees := by
  have hf0 : 0 ≤ p.fund_fee + p.platform_fee := le_of_lt hfpos
  have hfin : FeeInv ((pyRange 1 (p.contribution_years + p.growth_years + 1)).foldl
      (runYearWith p (monthStep p)) (initYState p)) := by
    refine foldl_inv (P := FeeInv) _ _ _ ?_ ?_
    · refine ⟨hS, le_refl _, ?_⟩
      intro yd hyd
      unfold initYState delayRows at hyd
      dsimp only at hyd
      rcases List.mem_map.1 hyd with ⟨z, _, rfl⟩
      exact le_refl 0
    · intro y year _ hy
      exact runYearWith_feeInv p hc hq hf0 hf1 y year hy
  obtain ⟨_, hle, hsched⟩ := hfin
  exact ⟨hsched, hle⟩

/-- C7 amended, witness: 1% fund fee, 6% return, ordinary inputs. -/
theorem fee_monotonicity_witness :
    (calculate_investment ⟨1000, 1, 1, 6, 100, "monthly", "end", 1, 0, 0⟩).end_balance
      ≤ (calculate_investment
          ⟨1000, 1, 1, 6, 100, "monthly", "end", 1, 0, 0⟩).balance_without_fees :=
  (fee_monotonicity ⟨1000, 1, 1, 6, 100, "monthly", "end", 1, 0, 0⟩
    (of_decide_eq_true (by with_unfolding_all rfl))
    (of_decide_eq_true (by with_unfolding_all rfl))
    (of_decide_eq_true (by with_unfolding_all rfl))
    (of_decide_eq_true (by with_unfolding_all rfl))
    (of_decide_eq_true (by with_unfolding_all rfl))).2

/-- Round-half-to-even is monotone. -/
theorem roundHalfEven_mono {x y : ℚ} (h : x ≤ y) :
    roundHalfEven x ≤ roundHalfEven y := by
  have hf : ⌊x⌋ ≤ ⌊y⌋ := Int.floor_le_floor h
  unfold roundHalfEven
  rcases eq_or_lt_of_le hf with heq | hlt
  · have hfr : Int.fract x ≤ Int.fract y := by
      unfold Int.fract
      rw [heq]
      exact sub_le_sub_right h _
    rw [heq]
    split_ifs <;> first | omega | (exfalso; linarith)
  · split_ifs <;> omega

/-- Python `round(·, d)` is monotone. -/
theorem pyRound_mono (d : ℕ) {x y : ℚ} (h : x ≤ y) : pyRound d x ≤ pyRound d y := by
  unfold pyRound
  have h1 : x * 10 ^ d ≤ y * 10 ^ d :=
    mul_le_mul_of_nonneg_right h (by positivity)
  have h2 : ((roundHalfEven (x * 10 ^ d) : ℤ) : ℚ)
      ≤ ((roundHalfEven (y * 10 ^ d) : ℤ) : ℚ) := by
    exact_mod_cast roundHalfEven_mono h1
  have hp : (0:ℚ) < 10 ^ d := by positivity
  exact (div_le_div_iff_of_pos_right hp).2 h2

/-- In a sorted list, `getD` with in-range indices is monotone. -/
theorem sorted_getD_mono {s : List ℚ} (hs : List.Sorted (fun a b => a ≤ b) s)
    {i j : ℕ} (hij : i ≤ j) (hj : j < s.length) : s.getD i 0 ≤ s.getD j 0 := by
  have hi : i < s.length := lt_of_le_of_lt hij hj
  rw [List.getD_eq_getElem?_getD, List.getD_eq_getElem?_getD,
    List.getElem?_eq_getElem hi, List.getElem?_eq_getElem hj]
  simp only [Option.getD_some]
  rw [← List.get_eq_getElem s ⟨i, hi⟩, ← List.get_eq_getElem s ⟨j, hj⟩]
  exact hs.rel_get_of_le hij

/-- The linear-interpolation percentile is monotone in the requested
percentage over 0..100. -/
theorem percentile_mono (xs : List ℚ) {q1 q2 : ℚ} (h0 : 0 ≤ q1) (h12 : q1 ≤ q2)
    (h100 : q2 ≤ 100) : percentile xs q1 ≤ percentile xs q2 := by
  unfold percentile
  by_cases hemp : xs.isEmpty
  · simp [hemp]
  · simp only [hemp, Bool.false_eq_true, if_false]
    set s := List.insertionSort (fun a b => a ≤ b) xs with hsdef
    have hsort : List.Sorted (fun a b => a ≤ b) s := List.sorted_insertionSort _ xs
    have hlen : s.length = xs.length := List.length_insertionSort _ xs
    have hne : 1 ≤ s.length := by
      rw [hlen]
      cases xs with
      | nil => simp at hemp
      | cons a t => simp
    set n := s.length with hndef
    set pos1 := q1 * ((n : ℚ) - 1) / 100 with hp1
    set pos2 := q2 * ((n : ℚ) - 1) / 100 with hp2
    have hn1 : (0:ℚ) ≤ (n:ℚ) - 1 := by
      have : (1:ℚ) ≤ (n:ℚ) := by exact_mod_cast hne
      linarith
    have hpos1_nonneg : 0 ≤ pos1 := by
      rw [hp1]
      exact div_nonneg (mul_nonneg h0 hn1) (by norm_num)
    have hpos12 : pos1 ≤ pos2 := by
      have hmul := mul_le_mul_of_nonneg_right h12 hn1
      rw [hp1, hp2]
      linarith
    have hpos2_le : pos2 ≤ (n:ℚ) - 1 := by
      have hmul := mul_le_mul_of_nonneg_right h100 hn1
      rw [hp2]
      linarith
    have hfl1_nonneg : 0 ≤ ⌊pos1⌋ := Int.floor_nonneg.2 hpos1_nonneg
    have hfl2_nonneg : 0 ≤ ⌊pos2⌋ :=
      Int.floor_nonneg.2 (le_trans hpos1_nonneg hpos12)
    have hfl12 : ⌊pos1⌋ ≤ ⌊pos2⌋ := Int.floor_le_floor hpos12
    have hfl2_le : ⌊pos2⌋ ≤ (n:ℤ) - 1 := by
      have h1 : ⌊pos2⌋ ≤ ⌊(n:ℚ) - 1⌋ := Int.floor_le_floor hpos2_le
      have h2 : ⌊(n:ℚ) - 1⌋ = (n:ℤ) - 1 := by
        rw [show ((n:ℚ) - 1) = (((n:ℤ) - 1 : ℤ) : ℚ) by push_cast; ring,
          Int.floor_intCast]
      omega
    set i1 := (⌊pos1⌋).toNat with hi1def
    set i2 := (⌊pos2⌋).toNat with hi2def
    have hi1cast : (i1 : ℤ) = ⌊pos1⌋ := Int.toNat_of_nonneg hfl1_nonneg
    have hi2cast : (i2 : ℤ) = ⌊pos2⌋ := Int.toNat_of_nonneg hfl2_nonneg
    have hi1_le : i1 ≤ n - 1 := by omega
    have hi2_le : i2 ≤ n - 1 := by omega
    have hg1_nonneg : 0 ≤ pos1 - (⌊pos1⌋ : ℚ) := by linarith [Int.floor_le pos1]
    have hg1_lt : pos1 - (⌊pos1⌋ : ℚ) < 1 := by linarith [Int.lt_floor_add_one pos1]
    have hg2_nonneg : 0 ≤ pos2 - (⌊pos2⌋ : ℚ) := by linarith [Int.floor_le pos2]
    have hlo1hi1 : s.getD i1 0 ≤ s.getD (min (i1+1) (n-1)) 0 := by
      apply sorted_getD_mono hsort (le_min (Nat.le_succ i1) hi1_le)
      exact lt_of_le_of_lt (min_le_right _ _) (by omega)
    have hlo2hi2 : s.getD i2 0 ≤ s.getD (min (i2+1) (n-1)) 0 := by
      apply sorted_getD_mono hsort (le_min (Nat.le_succ i2) hi2_le)
      exact lt_of_le_of_lt (min_le_right _ _) (by omega)
    rcases eq_or_lt_of_le hfl12 with heqf | hltf
    · have hii : i2 = i1 := by omega
      rw [hii]
      have hg12 : pos1 - (⌊pos1⌋:ℚ) ≤ pos2 - (⌊pos2⌋:ℚ) := by
        rw [heqf]
        linarith
      nlinarith [mul_le_mul_of_nonneg_right hg12
        (sub_nonneg.2 hlo1hi1)]
    · have hi1i2 : i1 + 1 ≤ i2 := by omega
      have hval1_le : s.getD i1 0 + (pos1 - (⌊pos1⌋:ℚ))
          * (s.getD (min (i1+1) (n-1)) 0 - s.getD i1 0)
          ≤ s.getD (min (i1+1) (n-1)) 0 := by
        nlinarith [mul_nonneg (sub_nonneg.2 hlo1hi1)
          (by linarith : (0:ℚ) ≤ 1 - (pos1 - (⌊pos1⌋:ℚ)))]
      have hmid : s.getD (min (i1+1) (n-1)) 0 ≤ s.getD i2 0 :=
        sorted_getD_mono hsort (le_trans (min_le_left _ _) hi1i2) (by omega)
      have hval2_ge : s.getD i2 0 ≤ s.getD i2 0 + (pos2 - (⌊pos2⌋:ℚ))
          * (s.getD (min (i2+1) (n-1)) 0 - s.getD i2 0) := by
        nlinarith [mul_nonneg hg2_nonneg (sub_nonneg.2 hlo2hi2)]
      linarith

theorem getD_map_range (T i : ℕ) (f : ℕ → ℚ) (h : i < T) :
    ((List.range T).map f).getD i 0 = f i := by
  rw [List.getD_eq_getElem?_getD, List.getElem?_map, List.getElem?_range h]
  rfl

/-- C8: in every Monte Carlo result, for every year index, the reported
(rounded) percentile band is ordered: p10 ≤ p25 ≤ p50 ≤ p75 ≤ p90. -/
theorem percentile_bands_ordered (p : SimParams) (rets : ℕ → ℤ → ℕ → ℚ) (i : ℕ) :
    (simulate p rets).p10.getD i 0 ≤ (simulate p rets).p25.getD i 0
    ∧ (simulate p rets).p25.getD i 0 ≤ (simulate p rets).p50.getD i 0
    ∧ (simulate p rets).p50.getD i 0 ≤ (simulate p rets).p75.getD i 0
    ∧ (simulate p rets).p75.getD i 0 ≤ (simulate p rets).p90.getD i 0 := by
  unfold simulate simulateWith
  dsimp only
  by_cases hi : i < (simTotalYears p).toNat
  · rw [getD_map_range _ _ _ hi, getD_map_range _ _ _ hi, getD_map_range _ _ _ hi,
      getD_map_range _ _ _ hi, getD_map_range _ _ _ hi]
    refine ⟨?_, ?_, ?_, ?_⟩ <;>
      exact pyRound_mono 2 (percentile_mono _ (by norm_num) (by norm_num) (by norm_num))
  · have hz : ∀ (f : ℕ → ℚ), ((List.range (simTotalYears p).toNat).map f).getD i 0 = 0 := by
      intro f
      apply List.getD_eq_default
      rw [List.length_map, List.length_range]
      omega
    rw [hz, hz, hz, hz, hz]
    exact ⟨le_refl 0, le_refl 0, le_refl 0, le_refl 0⟩

/-- The fraction of entries at least `t` is antitone in `t`. -/
theorem fracAtLeast_le (xs : List ℚ) {t1 t2 : ℚ} (h : t1 ≤ t2) :
    fracAtLeast xs t2 ≤ fracAtLeast xs t1 := by
  unfold fracAtLeast
  have hcount : xs.countP (fun b => decide (t2 ≤ b))
      ≤ xs.countP (fun b => decide (t1 ≤ b)) := by
    apply List.countP_mono_left
    intro b _ hb
    simp only [decide_eq_true_eq] at hb ⊢
    linarith
  rcases Nat.eq_zero_or_pos xs.length with h0 | hpos
  · rw [h0]
    norm_num
  · have hlen : (0:ℚ) < xs.length := by exact_mod_cast hpos
    exact (div_le_div_iff_of_pos_right hlen).2 (by exact_mod_cast hcount)

/-- C9: with nonnegative deterministic total_invested, the reported
(scaled, rounded) prob_positive is at least prob_double: meeting the
doubling threshold implies meeting the break-even threshold. -/
theorem prob_ordering (p : SimParams) (rets : ℕ → ℤ → ℕ → ℚ)
    (hti : 0 ≤ p.starting_amount
      + monthlyContribution p * 12 * (p.contribution_years : ℚ)) :
    (simulate p rets).stats.prob_double
      ≤ (simulate p rets).stats.prob_positive := by
  unfold simulate simulateWith
  dsimp only
  apply pyRound_mono
  set ti := p.starting_amount
    + monthlyContribution p * 12 * (p.contribution_years : ℚ) with htidef
  have h2 : ti ≤ ti * 2 := by linarith
  exact mul_le_mul_of_nonneg_left (fracAtLeast_le _ h2) (by norm_num)

/-- C9 witness: one path, zero returns, 100 starting and 10/month. -/
theorem prob_ordering_witness :
    (simulate ⟨100, 1, 0, 0, 0, 10, "monthly", "end", 0, 0, 0, 1⟩
        (fun _ _ _ => 0)).stats.prob_double
      ≤ (simulate ⟨100, 1, 0, 0, 0, 10, "monthly", "end", 0, 0, 0, 1⟩
        (fun _ _ _ => 0)).stats.prob_positive :=
  prob_ordering ⟨100, 1, 0, 0, 0, 10, "monthly", "end", 0, 0, 0, 1⟩
    (fun _ _ _ => 0) (of_decide_eq_true (by with_unfolding_all rfl))

theorem simYearWith_path_length (p : SimParams) (mstep : Bool → ℚ → ℚ → ℚ)
    (rets : ℤ → ℕ → ℚ) (st : List ℚ × ℚ) (year : ℤ) :
    (simYearWith p mstep rets st year).1.length = st.1.length + 1 := by
  unfold simYearWith
  split_ifs <;> simp

theorem simFold_path_length (p : SimParams) (mstep : Bool → ℚ → ℚ → ℚ)
    (rets : ℤ → ℕ → ℚ) :
    ∀ (l : List ℤ) (st : List ℚ × ℚ),
      (l.foldl (simYearWith p mstep rets) st).1.length
        = st.1.length + l.length := by
  intro l
  induction l with
  | nil => intro st; simp
  | cons a t ih =>
    intro st
    simp only [List.foldl_cons, List.length_cons]
    rw [ih, simYearWith_path_length]
    omega

theorem getD_append_length (xs : List ℚ) (v : ℚ) :
    (xs ++ [v]).getD xs.length 0 = v := by
  rw [List.getD_eq_getElem?_getD, List.getElem?_concat_length]
  rfl

set_option maxRecDepth 100000 in
/-- C10: the Monte Carlo engine floors only the year-end snapshots that
feed the percentile bands — the final-year entry of every path equals
`max 0` of the raw final balance used for the summary statistics — and
for a concrete run (one path, zero returns, a -200 "contribution" drawn
after fees with end-of-period timing) the raw final balance is -2300, so
worst_case = p10_final = -2300 < 0 while the floored final-year p10 band
is 0. -/
theorem yearend_floored_stats_unfloored (p : SimParams) (rets : ℤ → ℕ → ℚ)
    (h1 : 1 ≤ simTotalYears p) (h2 : p.delay_years < simTotalYears p) :
    ((simRun p rets).1.getD ((simTotalYears p).toNat - 1) 0
        = max 0 (simRun p rets).2)
    ∧ ((simulate ⟨100, 1, 0, 0, 0, -200, "monthly", "end", 0, 0, 0, 1⟩
          (fun _ _ _ => 0)).stats.worst_case = -2300
       ∧ (simulate ⟨100, 1, 0, 0, 0, -200, "monthly", "end", 0, 0, 0, 1⟩
          (fun _ _ _ => 0)).stats.p10_final = -2300
       ∧ (simulate ⟨100, 1, 0, 0, 0, -200, "monthly", "end", 0, 0, 0, 1⟩
          (fun _ _ _ => 0)).p10.getD 0 0 = 0
       ∧ (simulate ⟨100, 1, 0, 0, 0, -200, "monthly", "end", 0, 0, 0, 1⟩
          (fun _ _ _ => 0)).stats.worst_case
          < (simulate ⟨100, 1, 0, 0, 0, -200, "monthly", "end", 0, 0, 0, 1⟩
          (fun _ _ _ => 0)).p10.getD 0 0) := by
  constructor
  · unfold simRun simRunWith
    rw [pyRange_snoc 1 (simTotalYears p) h1, List.foldl_append]
    simp only [List.foldl_cons, List.foldl_nil]
    set st := (pyRange 1 (simTotalYears p)).foldl
      (simYearWith p (simMonthStep p) rets) ([], 0) with hstdef
    unfold simYearWith
    rw [if_neg (by omega : ¬ simTotalYears p ≤ p.delay_years)]
    dsimp only
    have hlenst : st.1.length = (simTotalYears p).toNat - 1 := by
      rw [hstdef, simFold_path_length, pyRange_length]
      simp only [List.length_nil]
      omega
    rw [← hlenst, getD_append_length]
  · exact of_decide_eq_true (by with_unfolding_all rfl)

/-- C10 witness: the floor relation instantiated on the concrete run. -/
theorem yearend_floored_witness :
    (simRun ⟨100, 1, 0, 0, 0, -200, "monthly", "end", 0, 0, 0, 1⟩
        (fun _ _ => 0)).1.getD 0 0
      = max 0 (simRun ⟨100, 1, 0, 0, 0, -200, "monthly", "end", 0, 0, 0, 1⟩
        (fun _ _ => 0)).2 :=
  (yearend_floored_stats_unfloored
    ⟨100, 1, 0, 0, 0, -200, "monthly", "end", 0, 0, 0, 1⟩
    (fun _ _ => 0) (by decide) (by decide)).1

theorem pyRange_self (a : ℤ) : pyRange a a = [] := by
  unfold pyRange
  simp

/-- The deterministic yearly-loop state after years 1..k. -/
def detAfter (p : InvParams) (k : ℤ) : YState :=
  (pyRange 1 (k + 1)).foldl (runYearWith p (monthStep p)) (initYState p)

/-- One degenerate-volatility Monte Carlo path state after years 1..k of
the engine run on the deterministic parameters. -/
def simAfter (p : InvParams) (n : ℕ) (k : ℤ) : List ℚ × ℚ :=
  (pyRange 1 (k + 1)).foldl
    (simYearWith (toSimParams p n) (simMonthStep (toSimParams p n))
      (fun year month => volZeroReturn (toSimParams p n))) ([], 0)

theorem sim_fold_delay (q : SimParams) (mstep : Bool → ℚ → ℚ → ℚ)
    (rets : ℤ → ℕ → ℚ) :
    ∀ (l : List ℤ), (∀ z ∈ l, z ≤ q.delay_years) → ∀ (st : List ℚ × ℚ),
      l.foldl (simYearWith q mstep rets) st
        = (st.1 ++ List.replicate l.length 0, st.2) := by
  intro l
  induction l with
  | nil => intro _ st; simp
  | cons a t ih =>
    intro hl st
    simp only [List.foldl_cons, List.length_cons]
    rw [ih (fun z hz => hl z (List.mem_cons_of_mem a hz))]
    unfold simYearWith
    rw [if_pos (hl a (List.mem_cons_self a t))]
    simp [List.replicate_succ]

theorem simAfter_delay (p : InvParams) (n : ℕ) (hd : 0 ≤ p.delay_years) :
    simAfter p n p.delay_years = (List.replicate p.delay_years.toNat 0, 0) := by
  unfold simAfter
  rw [sim_fold_delay _ _ _ _ (fun z hz => by
    have := mem_pyRange.1 hz
    unfold toSimParams
    dsimp only
    omega)]
  simp [pyRange_length]

theorem delayRows_map_ending (p : InvParams) :
    (delayRows p).map (fun yd => yd.ending_balance)
      = List.replicate p.delay_years.toNat 0 := by
  unfold delayRows
  rw [List.map_map]
  have : ((fun (yd : YearlyData) => yd.ending_balance) ∘ (fun (year : ℤ) =>
      ({ year := year, deposit := 0, interest := 0, ending_balance := 0,
         phase := 0, cumulative_starting := 0, cumulative_contributions := 0,
         cumulative_interest := 0, fees_paid := 0,
         balance_without_fees := 0 } : YearlyData))) = fun _ => (0:ℚ) := rfl
  rw [this, List.map_const', pyRange_length]
  congr 1
  omega

/-- With monthly frequency, the degenerate-volatility Monte Carlo month
update equals the deterministic month update on the balance. -/
theorem simMonthStep_toSim_eq (p : InvParams) (n : ℕ)
    (hfreq : p.contribution_frequency = "monthly") (ip : Bool) (mo : ℕ) (b : ℚ) :
    simMonthStep (toSimParams p n) ip (volZeroReturn (toSimParams p n)) b
      = detBalStep p ip mo b := by
  unfold simMonthStep detBalStep toSimParams volZeroReturn monthlyContribution
  dsimp only
  rw [hfreq]
  simp only [beq_self_eq_true, if_true, Bool.and_true]
  split_ifs <;> ring

theorem sim_month_fold_eq_det (p : InvParams) (n : ℕ)
    (hfreq : p.contribution_frequency = "monthly") (ip : Bool) (b0 : ℚ) :
    (List.range 12).foldl
      (fun b month => simMonthStep (toSimParams p n) ip
        (volZeroReturn (toSimParams p n)) b) b0
      = (List.range 12).foldl (fun b mo => detBalStep p ip mo b) b0 := by
  refine foldl_rel (R := fun (a b : ℚ) => a = b) _ _ _ _ _ rfl ?_
  intro x y i _ hxy
  rw [simMonthStep_toSim_eq p n hfreq ip i, hxy]

/-- The deterministic year update in terms of the balance-only month
update: the new balance and the appended ledger row's ending balance are
the 12-fold iterate of `detBalStep` on the old balance. -/
theorem runYearWith_balance_schedule (p : InvParams) (y : YState) (year : ℤ) :
    (runYearWith p (monthStep p) y year).balance
      = (List.range 12).foldl
          (fun b mo => detBalStep p (decide (year ≤ p.contribution_years)) mo b)
          y.balance
    ∧ (runYearWith p (monthStep p) y year).schedule.map
        (fun yd => yd.ending_balance)
      = y.schedule.map (fun yd => yd.ending_balance)
        ++ [(List.range 12).foldl
            (fun b mo => detBalStep p (decide (year ≤ p.contribution_years)) mo b)
            y.balance] := by
  have hbal : ∀ (m0 : MState), ((List.range 12).foldl
      (fun s month => monthStep p (decide (year ≤ p.contribution_years)) month s)
      m0).balance
      = (List.range 12).foldl
        (fun b mo => detBalStep p (decide (year ≤ p.contribution_years)) mo b)
        m0.balance := by
    intro m0
    refine foldl_rel (R := fun (m : MState) (b : ℚ) => m.balance = b)
      _ _ _ _ _ rfl ?_
    intro x b i _ hxb
    rw [monthStep_balance, hxb]
  unfold runYearWith
  dsimp only
  constructor
  · exact hbal _
  · rw [List.map_append]
    simp only [List.map_cons, List.map_nil]
    rw [hbal _]

theorem detBalStep_nonneg (p : InvParams) (hc : 0 ≤ p.contribution)
    (hq : 0 ≤ 1 + p.return_rate / 1200)
    (hg : 0 ≤ 1 - (p.fund_fee + p.platform_fee) / 1200)
    (ip : Bool) (mo : ℕ) {b : ℚ} (hb : 0 ≤ b) : 0 ≤ detBalStep p ip mo b := by
  unfold detBalStep
  split_ifs <;> dsimp only <;>
    nlinarith [mul_nonneg (mul_nonneg
        (by linarith : (0:ℚ) ≤ b + p.contribution) hq) hg,
      mul_nonneg (mul_nonneg hb hq) hg]

theorem det_month_fold_nonneg (p : InvParams) (hc : 0 ≤ p.contribution)
    (hq : 0 ≤ 1 + p.return_rate / 1200)
    (hg : 0 ≤ 1 - (p.fund_fee + p.platform_fee) / 1200) (ip : Bool) {b0 : ℚ}
    (hb : 0 ≤ b0) :
    0 ≤ (List.range 12).foldl (fun b mo => detBalStep p ip mo b) b0 := by
  refine foldl_inv (P := fun (b : ℚ) => 0 ≤ b) _ _ _ hb ?_
  intro x i _ hx
  exact detBalStep_nonneg p hc hq hg ip i hx

/-- Year-by-year alignment of the degenerate-volatility Monte Carlo path
with the deterministic ledger: after any number of modeled years the
path equals the ledger's ending balances, and the raw path balance
equals the deterministic balance (once the horizon has started). -/
theorem sim_det_aligned (p : InvParams) (n : ℕ)
    (hfreq : p.contribution_frequency = "monthly") (hd : 0 ≤ p.delay_years)
    (hS : 0 ≤ p.starting_amount) (hc : 0 ≤ p.contribution)
    (hq : 0 ≤ 1 + p.return_rate / 1200)
    (hg : 0 ≤ 1 - (p.fund_fee + p.platform_fee) / 1200) :
    ∀ (k : ℕ), (k : ℤ) ≤ p.contribution_years + p.growth_years →
      (simAfter p n (p.delay_years + k)).1
        = (detAfter p k).schedule.map (fun yd => yd.ending_balance)
      ∧ (simAfter p n (p.delay_years + k)).2
        = (if k = 0 then 0 else (detAfter p k).balance)
      ∧ 0 ≤ (detAfter p k).balance := by
  intro k
  induction k with
  | zero =>
    intro _
    have hdet0 : detAfter p ((0:ℕ):ℤ) = initYState p := by
      unfold detAfter
      rw [show ((0:ℕ):ℤ) + 1 = 1 by simp, pyRange_self]
      rfl
    refine ⟨?_, ?_, ?_⟩
    · rw [show p.delay_years + ((0:ℕ):ℤ) = p.delay_years by simp,
        simAfter_delay p n hd, hdet0]
      exact (delayRows_map_ending p).symm
    · rw [show p.delay_years + ((0:ℕ):ℤ) = p.delay_years by simp,
        simAfter_delay p n hd]
      simp
    · rw [hdet0]
      exact hS
  | succ k ih =>
    intro hk1
    have hk : (k:ℤ) ≤ p.contribution_years + p.growth_years := by
      push_cast at hk1
      omega
    obtain ⟨ihpath, ihbal, ihnn⟩ := ih hk
    have hdetsnoc : detAfter p ((k+1:ℕ):ℤ)
        = runYearWith p (monthStep p) (detAfter p ((k:ℕ):ℤ)) ((k:ℤ)+1) := by
      unfold detAfter
      rw [show (((k+1:ℕ)):ℤ) + 1 = ((k:ℤ)+1) + 1 by push_cast; ring,
        pyRange_snoc 1 ((k:ℤ)+1) (by omega), List.foldl_append]
      simp only [List.foldl_cons, List.foldl_nil]
    have hsimsnoc : simAfter p n (p.delay_years + ((k+1:ℕ):ℤ))
        = simYearWith (toSimParams p n) (simMonthStep (toSimParams p n))
            (fun year month => volZeroReturn (toSimParams p n))
            (simAfter p n (p.delay_years + ((k:ℕ):ℤ)))
            (p.delay_years + (k:ℤ) + 1) := by
      unfold simAfter
      rw [show p.delay_years + ((k+1:ℕ):ℤ) + 1
          = (p.delay_years + (k:ℤ) + 1) + 1 by push_cast; ring,
        pyRange_snoc 1 (p.delay_years + (k:ℤ) + 1) (by omega), List.foldl_append]
      simp only [List.foldl_cons, List.foldl_nil]
    have hip : (decide (p.delay_years + (k:ℤ) + 1
        ≤ (toSimParams p n).delay_years + (toSimParams p n).contribution_years))
        = (decide ((k:ℤ)+1 ≤ p.contribution_years)) := by
      unfold toSimParams
      dsimp only
      rw [decide_eq_decide]
      omega
    have hb0 : (if p.delay_years + (k:ℤ) + 1 = (toSimParams p n).delay_years + 1
        then (toSimParams p n).starting_amount
        else (simAfter p n (p.delay_years + ((k:ℕ):ℤ))).2)
        = (detAfter p ((k:ℕ):ℤ)).balance := by
      rcases Nat.eq_zero_or_pos k with hk0 | hkpos
      · subst hk0
        rw [if_pos (by unfold toSimParams; dsimp only; simp)]
        have hdet0 : detAfter p ((0:ℕ):ℤ) = initYState p := by
          unfold detAfter
          rw [show ((0:ℕ):ℤ) + 1 = 1 by simp, pyRange_self]
          rfl
        rw [hdet0]
        rfl
      · rw [if_neg (by unfold toSimParams; dsimp only; omega)]
        rw [ihbal, if_neg (by omega)]
    have hBnn : 0 ≤ (List.range 12).foldl
        (fun b mo => detBalStep p (decide ((k:ℤ)+1 ≤ p.contribution_years)) mo b)
        ((detAfter p ((k:ℕ):ℤ)).balance) :=
      det_month_fold_nonneg p hc hq hg _ ihnn
    have hys := runYearWith_balance_schedule p (detAfter p ((k:ℕ):ℤ)) ((k:ℤ)+1)
    rw [hsimsnoc, hdetsnoc]
    unfold simYearWith
    rw [if_neg (by unfold toSimParams; dsimp only; omega :
      ¬ p.delay_years + (k:ℤ) + 1 ≤ (toSimParams p n).delay_years)]
    dsimp only
    rw [hip, hb0, sim_month_fold_eq_det p n hfreq]
    refine ⟨?_, ?_, ?_⟩
    · rw [ihpath, hys.2, max_eq_right hBnn]
    · rw [if_neg (by omega : ¬ k + 1 = 0), hys.1]
    · rw [hys.1]
      exact hBnn

/-- C6 amended: with volatility 0 (so every draw degenerates to
1 + expected_return/12), monthly contribution frequency, nonnegative
delay and horizon, nonnegative starting amount and contribution, and
nonnegative monthly return and fee factors, every Monte Carlo path's
year-end balances equal the deterministic projection's ending balances,
year by year, exactly over ℚ. -/
theorem vol_zero_matches_deterministic (p : InvParams) (n : ℕ)
    (hfreq : p.contribution_frequency = "monthly") (hd : 0 ≤ p.delay_years)
    (hT : 0 ≤ p.contribution_years + p.growth_years)
    (hS : 0 ≤ p.starting_amount) (hc : 0 ≤ p.contribution)
    (hq : 0 ≤ 1 + p.return_rate / 1200)
    (hg : 0 ≤ 1 - (p.fund_fee + p.platform_fee) / 1200) :
    (simRun (toSimParams p n)
        (fun year month => volZeroReturn (toSimParams p n))).1
      = (calculate_investment p).schedule.map (fun yd => yd.ending_balance) := by
  have halign := (sim_det_aligned p n hfreq hd hS hc hq hg
    (p.contribution_years + p.growth_years).toNat
    (by rw [Int.toNat_of_nonneg hT])).1
  rw [Int.toNat_of_nonneg hT] at halign
  have htot : simTotalYears (toSimParams p n)
      = p.delay_years + (p.contribution_years + p.growth_years) := by
    unfold simTotalYears toSimParams
    dsimp only
    ring
  unfold simRun simRunWith
  rw [htot]
  unfold calculate_investment calcWith
  dsimp only
  unfold simAfter detAfter at halign
  exact halign

set_option maxRecDepth 400000 in
/-- C6 counterexample: with yearly contribution frequency the Monte Carlo
engine spreads the contribution as contribution/12 every month while the
deterministic projector deposits it all in month 0, so with a nonzero
return the year-end balances differ even at volatility 0. -/
theorem vol_zero_cex :
    (simRun (toSimParams ⟨0, 1, 0, 1200, 1200, "yearly", "beginning", 0, 0, 0⟩ 1)
        (fun year month => volZeroReturn
          (toSimParams ⟨0, 1, 0, 1200, 1200, "yearly", "beginning", 0, 0, 0⟩ 1))).1
      ≠ (calculate_investment
          ⟨0, 1, 0, 1200, 1200, "yearly", "beginning", 0, 0, 0⟩).schedule.map
          (fun yd => yd.ending_balance) :=
  of_decide_eq_true (by with_unfolding_all rfl)

/-- C6 amended, witness: monthly contributions, fees and a delay year. -/
theorem vol_zero_witness :
    (simRun (toSimParams ⟨1000, 1, 1, 12, 100, "monthly", "end", 1, 0, 1⟩ 1)
        (fun year month => volZeroReturn
          (toSimParams ⟨1000, 1, 1, 12, 100, "monthly", "end", 1, 0, 1⟩ 1))).1
      = (calculate_investment
          ⟨1000, 1, 1, 12, 100, "monthly", "end", 1, 0, 1⟩).schedule.map
          (fun yd => yd.ending_balance) :=
  vol_zero_matches_deterministic ⟨1000, 1, 1, 12, 100, "monthly", "end", 1, 0, 1⟩ 1
    rfl (by decide) (by decide)
    (of_decide_eq_true (by with_unfolding_all rfl))
    (of_decide_eq_true (by with_unfolding_all rfl))
    (of_decide_eq_true (by with_unfolding_all rfl))
    (of_decide_eq_true (by with_unfolding_all rfl))
